import Mathlib

/-!
Shallow embedding of the TabSplit bill-split core (reconciler, allocation
engine, receipt edit transaction, commit cascade), translated from the
TypeScript source.  Money values are modelled as exact rationals; the
source uses JavaScript numbers, whose arithmetic the spec treats as exact
up to floating-point epsilon.
-/

namespace TabSplit

/-- A receipt line item, from `types.ts` (`ReceiptItem`). -/
structure ReceiptItem where
  item_name : String
  quantity : ℚ
  price : ℚ
  confidence_score : ℚ
  notes : Option String
deriving Repr, DecidableEq

/-- The extracted receipt, from `types.ts` (`ReceiptData`). -/
structure ReceiptData where
  items : List ReceiptItem
  subtotal : ℚ
  tax : ℚ
  tip : ℚ
  total : ℚ
deriving Repr, DecidableEq

/-- One assigned portion of an item, from `types.ts` (`AssignedItem`). -/
structure AssignedItem where
  item_name : String
  price : ℚ
deriving Repr, DecidableEq

/-- One person's share, from `types.ts` (`PersonSplit`). -/
structure PersonSplit where
  person_name : String
  items : List AssignedItem
  subtotal : ℚ
  tax : ℚ
  tip : ℚ
  total : ℚ
deriving Repr, DecidableEq

/-- `type BillSplit = PersonSplit[]` from `types.ts`. -/
abbrev BillSplit := List PersonSplit

/-- Message sender tag from `types.ts` (`ChatMessage.sender`). -/
inductive Sender where
  | user
  | bot
  | system
deriving Repr, DecidableEq

/-- A chat log entry, from `types.ts` (`ChatMessage`). -/
structure ChatMessage where
  sender : Sender
  text : String
deriving Repr, DecidableEq

/-- The per-person body of `recalculateBillSplit`
(`ReceiptPanel.tsx`): recompute subtotal from the assigned items,
distribute tax and tip by the subtotal ratio, and derive the total. -/
def recalcPerson (data : ReceiptData) (person : PersonSplit) : PersonSplit :=
  let subtotal := person.items.foldl (fun acc item => acc + item.price) 0
  let taxRatio := subtotal / data.subtotal
  let tax := data.tax * taxRatio
  let tip := data.tip * taxRatio
  let total := subtotal + tax + tip
  { person with subtotal := subtotal, tax := tax, tip := tip, total := total }

/-- `recalculateBillSplit` from `ReceiptPanel.tsx`: the Allocation Engine
`recompute`.  When `data.subtotal === 0` the input split is returned
verbatim; otherwise every person's money fields are recomputed. -/
def recalculateBillSplit (data : ReceiptData) (currentSplit : BillSplit) : BillSplit :=
  if data.subtotal = 0 then currentSplit
  else currentSplit.map (recalcPerson data)

/-- Step 1 of `handleAssignmentChange`: strip the item (by name) from
every person's list (`person.items = person.items.filter(i => i.item_name !== item.item_name)`). -/
def removePerson (itemName : String) (person : PersonSplit) : PersonSplit :=
  { person with items := person.items.filter (fun i => i.item_name != itemName) }

/-- The `tempSplit.forEach` loop of step 1 of `handleAssignmentChange`. -/
def removeItemFromAll (itemName : String) (split : BillSplit) : BillSplit :=
  split.map (removePerson itemName)

/-- One iteration of the `names.forEach` loop of `handleAssignmentChange`:
`tempSplit.find(p => p.person_name === name)` locates the first person
with that name and pushes the portion onto their items; when no such
person exists a fresh person (zeroed money fields) is pushed at the end
already holding the portion. -/
def pushToFirst (itemName : String) (portion : ℚ) (name : String) :
    BillSplit → BillSplit
  | [] => [{ person_name := name, items := [{ item_name := itemName, price := portion }],
             subtotal := 0, tax := 0, tip := 0, total := 0 }]
  | p :: rest =>
    if p.person_name == name then
      { p with items := p.items ++ [{ item_name := itemName, price := portion }] } :: rest
    else
      p :: pushToFirst itemName portion name rest

/-- `handleAssignmentChange` from `ReceiptPanel.tsx` (the Reconciler's
`assignItem`), restricted to its bill-split effect: clear the item from
everyone, push one `price / names.length` portion per name occurrence,
drop people left with no items, and recompute via the Allocation Engine. -/
def handleAssignmentChange (billSplit : BillSplit) (data : ReceiptData)
    (item : ReceiptItem) (names : List String) : BillSplit :=
  let tempSplit := removeItemFromAll item.item_name billSplit
  let tempSplit :=
    if 0 < names.length then
      let pricePerPerson := item.price / (names.length : ℚ)
      names.foldl (fun s name => pushToFirst item.item_name pricePerPerson name s) tempSplit
    else tempSplit
  let tempSplit := tempSplit.filter (fun p => decide (0 < p.items.length))
  recalculateBillSplit data tempSplit

/-- `handleSendMessage` from `ChatPanel.tsx`, restricted to its
bill-split effect: when `updateBillSplit` resolves with a parsed
proposal the proposal is stored as the new split (`setBillSplit(updatedSplit)`);
when it rejects, the split is left unchanged. -/
def handleSendMessage (billSplit : BillSplit)
    (updatedSplit : Except String BillSplit) : BillSplit :=
  match updatedSplit with
  | Except.ok s => s
  | Except.error _ => billSplit

/-- The field addressed by one `handleReceiptEdit` call on a line item
(the `items.${index}.${key}` case of `ReceiptPanel`'s field union). -/
inductive ItemField where
  | name (v : String)
  | quantity (v : ℚ)
  | price (v : ℚ)
  | confidence (v : ℚ)
  | itemNotes (v : Option String)
deriving Repr, DecidableEq

/-- The field addressed by one `handleReceiptEdit` call (the
`keyof ReceiptData` and `items.${number}.${keyof ReceiptItem}` union). -/
inductive ReceiptField where
  | itemField (idx : Nat) (f : ItemField)
  | items (v : List ReceiptItem)
  | subtotal (v : ℚ)
  | tax (v : ℚ)
  | tip (v : ℚ)
  | total (v : ℚ)
deriving Repr, DecidableEq

/-- Apply one item-level field write (`newData.items[index][key] = value`). -/
def setItemField (it : ReceiptItem) : ItemField → ReceiptItem
  | ItemField.name v => { it with item_name := v }
  | ItemField.quantity v => { it with quantity := v }
  | ItemField.price v => { it with price := v }
  | ItemField.confidence v => { it with confidence_score := v }
  | ItemField.itemNotes v => { it with notes := v }

/-- Replace the list element at `idx` by `f` applied to it (in the source
the index always comes from rendering the list, so it is in bounds). -/
def modifyIdx (f : α → α) : Nat → List α → List α
  | _, [] => []
  | 0, a :: rest => f a :: rest
  | n + 1, a :: rest => a :: modifyIdx f n rest

/-- `handleReceiptEdit` from `ReceiptPanel.tsx`: write the addressed
field into a copy of the draft, then unconditionally rederive
`newData.total = newData.subtotal + newData.tax + newData.tip`. -/
def handleReceiptEdit (draft : ReceiptData) (field : ReceiptField) : ReceiptData :=
  let newData :=
    match field with
    | ReceiptField.itemField idx f => { draft with items := modifyIdx (fun it => setItemField it f) idx draft.items }
    | ReceiptField.items v => { draft with items := v }
    | ReceiptField.subtotal v => { draft with subtotal := v }
    | ReceiptField.tax v => { draft with tax := v }
    | ReceiptField.tip v => { draft with tip := v }
    | ReceiptField.total v => { draft with total := v }
  { newData with total := newData.subtotal + newData.tax + newData.tip }

/-- The fresh item pushed by `handleAddItem`. -/
def newBlankItem : ReceiptItem :=
  { item_name := "", quantity := 1, price := 0, confidence_score := 1, notes := some "Manually added" }

/-- `handleAddItem` from `ReceiptPanel.tsx`: append a blank item via
`handleReceiptEdit('items', ...)`. -/
def handleAddItem (draft : ReceiptData) : ReceiptData :=
  handleReceiptEdit draft (ReceiptField.items (draft.items ++ [newBlankItem]))

/-- `handleRemoveItem` from `ReceiptPanel.tsx`: drop the item at `idx`
via `handleReceiptEdit('items', items.filter((_, i) => i !== index))`. -/
def handleRemoveItem (draft : ReceiptData) (idx : Nat) : ReceiptData :=
  handleReceiptEdit draft (ReceiptField.items ((draft.items.enum.filter (fun pr => pr.1 != idx)).map Prod.snd))

/-- The application state touched by `handleSaveReceipt`
(`receiptData`, `billSplit`, `chatMessages`, `isReceiptEditing` React
state plus the `editingReceiptData` draft). -/
structure AppState where
  receiptData : Option ReceiptData
  billSplit : BillSplit
  chatMessages : List ChatMessage
  isReceiptEditing : Bool
  editingReceiptData : Option ReceiptData
deriving Repr, DecidableEq

/-- The single system notice installed by a receipt commit. -/
def commitNotice : ChatMessage :=
  { sender := Sender.system,
    text := "Receipt updated. The bill split has been reset. Please provide new instructions." }

/-- `handleSaveReceipt` from `ReceiptPanel.tsx`: with a draft present and
the destructive-action dialog confirmed, promote the draft to the
canonical receipt, clear the bill split, reset the chat log to the single
system notice and leave edit mode (the edit-mode effect then discards the
draft); with the dialog declined, or no draft, nothing changes. -/
def handleSaveReceipt (st : AppState) (confirmed : Bool) : AppState :=
  match st.editingReceiptData with
  | none => st
  | some draft =>
    if confirmed then
      { st with
        receiptData := some draft
        billSplit := []
        chatMessages := [commitNotice]
        isReceiptEditing := false
        editingReceiptData := none }
    else st

/-- All price portions recorded for item `n` across the split, in order:
each person contributes the prices of their `assigned_items` entries
whose `item_name` is `n`. -/
def entriesFor (n : String) (split : BillSplit) : List ℚ :=
  (split.map (fun p => (p.items.filter (fun i => i.item_name == n)).map AssignedItem.price)).flatten

/-- Sum of the price portions recorded for item `n` across the split. -/
def portionSum (n : String) (split : BillSplit) : ℚ :=
  (entriesFor n split).sum

/-- Number of assigned-item entries for item `n` across the split. -/
def entryCount (n : String) (split : BillSplit) : Nat :=
  (entriesFor n split).length

lemma recalcPerson_items (d : ReceiptData) (p : PersonSplit) :
    (recalcPerson d p).items = p.items := rfl

lemma recalcPerson_name (d : ReceiptData) (p : PersonSplit) :
    (recalcPerson d p).person_name = p.person_name := rfl

lemma foldl_add_price (l : List AssignedItem) (a : ℚ) :
    l.foldl (fun acc item => acc + item.price) a = a + (l.map AssignedItem.price).sum := by
  induction l generalizing a with
  | nil => simp
  | cons x xs ih => simp [List.foldl_cons, ih, add_assoc]

lemma entriesFor_cons (n : String) (p : PersonSplit) (s : BillSplit) :
    entriesFor n (p :: s) =
      (p.items.filter (fun i => i.item_name == n)).map AssignedItem.price ++ entriesFor n s := rfl

lemma filter_eq_of_filter_ne (n : String) (l : List AssignedItem) :
    (l.filter (fun i => i.item_name != n)).filter (fun i => i.item_name == n) = [] := by
  induction l with
  | nil => rfl
  | cons x xs ih =>
    by_cases hx : x.item_name = n
    · simp [List.filter_cons, hx, ih]
    · simp [List.filter_cons, hx, ih]

lemma entriesFor_removeItemFromAll (n : String) (s : BillSplit) :
    entriesFor n (removeItemFromAll n s) = [] := by
  induction s with
  | nil => rfl
  | cons p rest ih =>
    simp only [removeItemFromAll, List.map_cons] at ih ⊢
    rw [entriesFor_cons]
    simp [removePerson, filter_eq_of_filter_ne, ih]

lemma entriesFor_pushToFirst_length (n : String) (portion : ℚ) (name : String)
    (s : BillSplit) :
    (entriesFor n (pushToFirst n portion name s)).length = (entriesFor n s).length + 1 := by
  induction s with
  | nil => simp [pushToFirst, entriesFor]
  | cons p rest ih =>
    by_cases hp : p.person_name == name
    · simp only [pushToFirst, hp, if_pos]
      rw [entriesFor_cons, entriesFor_cons]
      simp [List.filter_append]
      omega
    · simp only [pushToFirst, hp, Bool.false_eq_true, if_neg, not_false_eq_true]
      rw [entriesFor_cons, entriesFor_cons]
      simp [ih]
      omega

lemma entriesFor_pushToFirst_mem (n : String) (portion : ℚ) (name : String)
    (s : BillSplit) (x : ℚ) (hx : x ∈ entriesFor n (pushToFirst n portion name s)) :
    x ∈ entriesFor n s ∨ x = portion := by
  induction s with
  | nil =>
    simp [pushToFirst, entriesFor] at hx
    exact Or.inr hx
  | cons p rest ih =>
    by_cases hp : p.person_name == name
    · simp only [pushToFirst, hp, if_pos] at hx
      rw [entriesFor_cons] at hx
      rw [entriesFor_cons]
      simp [List.filter_append] at hx
      rcases hx with ⟨a, ⟨ha, han⟩, hax⟩ | h | h
      · exact Or.inl (List.mem_append_left _ (hax ▸ List.mem_map_of_mem _ (List.mem_filter.2 ⟨ha, by simp [han]⟩)))
      · exact Or.inr h
      · exact Or.inl (List.mem_append_right _ h)
    · simp only [pushToFirst, hp, Bool.false_eq_true, if_neg, not_false_eq_true] at hx
      rw [entriesFor_cons] at hx
      rw [entriesFor_cons]
      rcases List.mem_append.1 hx with h | h
      · exact Or.inl (List.mem_append_left _ h)
      · rcases ih h with h2 | h2
        · exact Or.inl (List.mem_append_right _ h2)
        · exact Or.inr h2

lemma entriesFor_assignLoop_length (n : String) (portion : ℚ) (names : List String) :
    ∀ s : BillSplit,
      (entriesFor n (names.foldl (fun acc name => pushToFirst n portion name acc) s)).length
        = (entriesFor n s).length + names.length := by
  induction names with
  | nil => intro s; simp
  | cons a as ih =>
    intro s
    simp only [List.foldl_cons]
    rw [ih, entriesFor_pushToFirst_length]
    simp
    omega

lemma entriesFor_assignLoop_mem (n : String) (portion : ℚ) (names : List String) :
    ∀ (s : BillSplit) (x : ℚ),
      x ∈ entriesFor n (names.foldl (fun acc name => pushToFirst n portion name acc) s) →
        x ∈ entriesFor n s ∨ x = portion := by
  induction names with
  | nil => intro s x hx; exact Or.inl hx
  | cons a as ih =>
    intro s x hx
    simp only [List.foldl_cons] at hx
    rcases ih _ x hx with h | h
    · exact entriesFor_pushToFirst_mem n portion a s x h
    · exact Or.inr h

lemma entriesFor_filter_hasItems (n : String) (s : BillSplit) :
    entriesFor n (s.filter (fun p => decide (0 < p.items.length))) = entriesFor n s := by
  induction s with
  | nil => rfl
  | cons p rest ih =>
    by_cases hp : 0 < p.items.length
    · rw [List.filter_cons_of_pos (by simpa using hp), entriesFor_cons, entriesFor_cons, ih]
    · have hnil : p.items = [] := List.length_eq_zero.1 (by omega)
      rw [List.filter_cons_of_neg (by simpa using hp), entriesFor_cons, ih, hnil]
      simp

lemma entriesFor_recalculate (n : String) (d : ReceiptData) (s : BillSplit) :
    entriesFor n (recalculateBillSplit d s) = entriesFor n s := by
  unfold recalculateBillSplit
  split
  · rfl
  · unfold entriesFor
    rw [List.map_map]
    rfl

lemma entriesFor_handleAssignmentChange (split : BillSplit) (d : ReceiptData)
    (item : ReceiptItem) (names : List String) (h : names ≠ []) :
    entriesFor item.item_name (handleAssignmentChange split d item names)
      = List.replicate names.length (item.price / (names.length : ℚ)) := by
  have hlen : 0 < names.length := List.length_pos.2 h
  simp only [handleAssignmentChange, if_pos hlen]
  apply List.eq_replicate_iff.2
  constructor
  · rw [entriesFor_recalculate, entriesFor_filter_hasItems, entriesFor_assignLoop_length,
      entriesFor_removeItemFromAll]
    simp
  · intro b hb
    rw [entriesFor_recalculate, entriesFor_filter_hasItems] at hb
    rcases entriesFor_assignLoop_mem _ _ _ _ _ hb with h2 | h2
    · rw [entriesFor_removeItemFromAll] at h2
      exact absurd h2 (List.not_mem_nil b)
    · exact h2

lemma map_self_of_mem {α : Type} {l : List α} {f : α → α} (h : ∀ a ∈ l, f a = a) :
    l.map f = l := by
  induction l with
  | nil => rfl
  | cons a rest ih =>
    rw [List.map_cons, h a (List.mem_cons_self a rest), ih (fun b hb => h b (List.mem_cons_of_mem a hb))]

lemma removePerson_idem (n : String) (p : PersonSplit) :
    removePerson n (removePerson n p) = removePerson n p := by
  simp [removePerson, List.filter_filter]

lemma recalcPerson_idem (d : ReceiptData) (p : PersonSplit) :
    recalcPerson d (recalcPerson d p) = recalcPerson d p := rfl

lemma removePerson_recalcPerson (n : String) (d : ReceiptData) (p : PersonSplit) :
    removePerson n (recalcPerson d (removePerson n p)) = recalcPerson d (removePerson n p) := by
  simp [removePerson, recalcPerson, List.filter_filter]

lemma filter_hasItems_map_recalc (d : ReceiptData) (l : BillSplit) :
    (l.map (recalcPerson d)).filter (fun p => decide (0 < p.items.length))
      = (l.filter (fun p => decide (0 < p.items.length))).map (recalcPerson d) := by
  rw [List.filter_map]
  rfl

lemma filter_hasItems_idem (l : BillSplit) :
    (l.filter (fun p => decide (0 < p.items.length))).filter (fun p => decide (0 < p.items.length))
      = l.filter (fun p => decide (0 < p.items.length)) := by
  rw [List.filter_filter]
  simp

/-- Test receipt: one 15.00 item, subtotal 15, tax 1.50, tip 0.75. -/
def dNachos : ReceiptData :=
  { items := [{ item_name := "Nachos", quantity := 1, price := 15, confidence_score := 1, notes := none }],
    subtotal := 15, tax := 3/2, tip := 3/4, total := 69/4 }

/-- The 15.00 line item of `dNachos`. -/
def nachos : ReceiptItem :=
  { item_name := "Nachos", quantity := 1, price := 15, confidence_score := 1, notes := none }

/-- Test receipt with subtotal 100, tax 10, tip 5. -/
def dHundred : ReceiptData := { items := [], subtotal := 100, tax := 10, tip := 5, total := 115 }

/-- Test split: one person holding a single 25.00 portion, money fields zeroed. -/
def sQuarter : BillSplit :=
  [{ person_name := "Dana", items := [{ item_name := "Starter", price := 25 }],
     subtotal := 0, tax := 0, tip := 0, total := 0 }]

/-- Test receipt with subtotal 0 but nonzero tax and tip. -/
def dZero : ReceiptData := { items := [], subtotal := 0, tax := 7, tip := 3, total := 10 }

/-- C5: for every input split, if the receipt subtotal is 0 then
`recalculateBillSplit` returns the input split exactly unchanged,
performing no division and raising no error. -/
theorem recompute_zero_subtotal_id (d : ReceiptData) (s : BillSplit)
    (h : d.subtotal = 0) : recalculateBillSplit d s = s := by
  simp [recalculateBillSplit, h]

/-- Witness for C5 at a concrete zero-subtotal receipt and nonempty split. -/
theorem recompute_zero_subtotal_id_witness :
    dZero.subtotal = 0 ∧ recalculateBillSplit dZero sQuarter = sQuarter :=
  ⟨rfl, recompute_zero_subtotal_id dZero sQuarter rfl⟩

/-- C6: when the receipt subtotal is nonzero, `recalculateBillSplit`
gives every person subtotal = the sum of their assigned portions,
tax = receipt.tax * (subtotal / receipt.subtotal), tip analogous, and
total = subtotal + tax + tip. -/
theorem recompute_proportional (d : ReceiptData) (s : BillSplit)
    (h : d.subtotal ≠ 0) :
    recalculateBillSplit d s = s.map (fun p =>
      { p with
        subtotal := (p.items.map AssignedItem.price).sum
        tax := d.tax * ((p.items.map AssignedItem.price).sum / d.subtotal)
        tip := d.tip * ((p.items.map AssignedItem.price).sum / d.subtotal)
        total := (p.items.map AssignedItem.price).sum
          + d.tax * ((p.items.map AssignedItem.price).sum / d.subtotal)
          + d.tip * ((p.items.map AssignedItem.price).sum / d.subtotal) }) := by
  unfold recalculateBillSplit
  rw [if_neg h]
  refine List.map_congr_left (fun p _ => ?_)
  simp [recalcPerson, foldl_add_price]

/-- Witness for C6: the spec's proportionality example — subtotal 100,
tax 10, tip 5, one person with a 25.00 portion comes out with tax 2.5,
tip 1.25, total 28.75. -/
theorem recompute_proportional_witness :
    dHundred.subtotal ≠ 0 ∧
    recalculateBillSplit dHundred sQuarter =
      [{ person_name := "Dana", items := [{ item_name := "Starter", price := 25 }],
         subtotal := 25, tax := 5/2, tip := 5/4, total := 115/4 }] := by
  refine ⟨by norm_num [dHundred], ?_⟩
  rw [recompute_proportional dHundred sQuarter (by norm_num [dHundred])]
  simp [dHundred, sQuarter]
  norm_num

/-- C10: with a nonzero receipt subtotal, `recalculateBillSplit`
preserves the number and order of PersonSplit entries and leaves every
person's name and assigned-items sequence unchanged. -/
theorem recompute_frame (d : ReceiptData) (s : BillSplit) (h : d.subtotal ≠ 0) :
    (recalculateBillSplit d s).length = s.length ∧
    (recalculateBillSplit d s).map PersonSplit.person_name = s.map PersonSplit.person_name ∧
    (recalculateBillSplit d s).map PersonSplit.items = s.map PersonSplit.items := by
  unfold recalculateBillSplit
  rw [if_neg h]
  refine ⟨List.length_map s _, ?_, ?_⟩
  · rw [List.map_map]
    rfl
  · rw [List.map_map]
    rfl

/-- Witness for C10 at a concrete nonzero-subtotal receipt and split. -/
theorem recompute_frame_witness :
    dHundred.subtotal ≠ 0 ∧
    ((recalculateBillSplit dHundred sQuarter).length = sQuarter.length ∧
     (recalculateBillSplit dHundred sQuarter).map PersonSplit.person_name = sQuarter.map PersonSplit.person_name ∧
     (recalculateBillSplit dHundred sQuarter).map PersonSplit.items = sQuarter.map PersonSplit.items) :=
  ⟨by norm_num [dHundred], recompute_frame dHundred sQuarter (by norm_num [dHundred])⟩

/-- C1 counterexample: the state accepted after a successful external
split update is the proposal itself, which differs from the Allocation
Engine's recompute of that proposal whenever the proposal's money fields
are stale (here: all zero while the recompute yields 25/2.5/1.25/28.75). -/
theorem sendMessage_stores_proposal_verbatim_cex :
    handleSendMessage [] (Except.ok sQuarter) ≠ recalculateBillSplit dHundred sQuarter := by
  simp [handleSendMessage, recalculateBillSplit, recalcPerson, dHundred, sQuarter]

/-- C1 amended: the merge accepts the external proposal verbatim — on a
parseable proposal the stored state is the proposal itself (its money
fields included, with no local recompute), and on a parse failure the
current split is kept unchanged. -/
theorem sendMessage_accepts_proposal_verbatim (current proposal : BillSplit) (e : String) :
    handleSendMessage current (Except.ok proposal) = proposal ∧
    handleSendMessage current (Except.error e) = current :=
  ⟨rfl, rfl⟩

/-- C2: for every receipt item and every non-empty assignee list, after
`handleAssignmentChange` the price portions recorded for that item across
all people sum exactly to the item's original price — nothing dropped,
nothing double-counted (exact in rational arithmetic, hence within any
floating-point epsilon). -/
theorem assignItem_conserves_item_price (split : BillSplit) (d : ReceiptData)
    (item : ReceiptItem) (names : List String) (h : names ≠ []) :
    portionSum item.item_name (handleAssignmentChange split d item names) = item.price := by
  unfold portionSum
  rw [entriesFor_handleAssignmentChange split d item names h]
  rw [List.sum_replicate, nsmul_eq_mul]
  have hlen : (names.length : ℚ) ≠ 0 := by
    have := List.length_pos.2 h
    positivity
  rw [mul_comm, div_mul_cancel₀ _ hlen]

/-- Witness for C2: splitting the 15.00 Nachos among three people
records portions summing back to 15.00. -/
theorem assignItem_conserves_item_price_witness :
    (["Alice", "Bob", "Charlie"] : List String) ≠ [] ∧
    portionSum "Nachos" (handleAssignmentChange [] dNachos nachos ["Alice", "Bob", "Charlie"]) = nachos.price :=
  ⟨by simp, assignItem_conserves_item_price [] dNachos nachos ["Alice", "Bob", "Charlie"] (by simp)⟩

/-- C3 counterexample: a parseable external proposal containing a person
with an empty assigned-items list is stored as-is by the merge, so after
that Reconciler operation the split does contain a PersonSplit with no
items — the no-orphans invariant does not survive the merge path. -/
theorem merge_orphan_cex :
    (handleSendMessage [] (Except.ok
        [{ person_name := "Alice", items := [], subtotal := 0, tax := 0, tip := 0, total := 0 }])).all
      (fun p => decide (0 < p.items.length)) = false := rfl

lemma all_hasItems_recalc_filter (d : ReceiptData) (t : BillSplit) :
    (recalculateBillSplit d (t.filter (fun p => decide (0 < p.items.length)))).all
      (fun p => decide (0 < p.items.length)) = true := by
  unfold recalculateBillSplit
  split
  · simp only [List.all_eq_true]
    intro p hp
    exact (List.mem_filter.1 hp).2
  · rw [List.all_map]
    simp only [List.all_eq_true]
    intro p hp
    exact (List.mem_filter.1 hp).2

/-- C3 amended: after the manual `handleAssignmentChange` operation (any
assignee list, including empty) no PersonSplit has an empty
assigned-items sequence; the merge of an external proposal stores the
proposal verbatim and therefore offers no such guarantee. -/
theorem assignItem_no_orphans (split : BillSplit) (d : ReceiptData)
    (item : ReceiptItem) (names : List String) :
    (handleAssignmentChange split d item names).all (fun p => decide (0 < p.items.length)) = true :=
  all_hasItems_recalc_filter d _

/-- C4 counterexample: assigning Nachos to the duplicated list
`["Alice", "Alice"]` produces a single person holding TWO assigned-item
entries of 7.50 each — duplicates are not collapsed to one entry. -/
theorem assignItem_duplicate_names_cex :
    entryCount "Nachos" (handleAssignmentChange [] dNachos nachos ["Alice", "Alice"]) = 2 ∧
    (handleAssignmentChange [] dNachos nachos ["Alice", "Alice"]).length = 1 := by
  constructor
  · simp [entryCount, entriesFor, handleAssignmentChange, removeItemFromAll, pushToFirst,
      recalculateBillSplit, recalcPerson, removePerson, dNachos, nachos]
  · simp [handleAssignmentChange, removeItemFromAll, pushToFirst,
      recalculateBillSplit, recalcPerson, removePerson, dNachos, nachos]

/-- C4 amended: duplicate names are not de-duplicated — the number of
assigned-item entries recorded for the item equals the length of the
assignee list (occurrences included), so a name listed k times yields k
separate entries, all held under a single PersonSplit for that name. -/
theorem assignItem_entry_count (split : BillSplit) (d : ReceiptData)
    (item : ReceiptItem) (names : List String) :
    entryCount item.item_name (handleAssignmentChange split d item names) = names.length := by
  by_cases h : names = []
  · subst h
    unfold entryCount handleAssignmentChange
    simp only [List.length_nil, lt_irrefl, if_false]
    rw [entriesFor_recalculate, entriesFor_filter_hasItems, entriesFor_removeItemFromAll]
    rfl
  · unfold entryCount
    rw [entriesFor_handleAssignmentChange split d item names h, List.length_replicate]

/-- C7: unassigning an item (empty assignee list) is idempotent — doing
it twice produces exactly the split produced by doing it once. -/
theorem unassign_idempotent (split : BillSplit) (d : ReceiptData) (item : ReceiptItem) :
    handleAssignmentChange (handleAssignmentChange split d item []) d item []
      = handleAssignmentChange split d item [] := by
  have hno : ¬ (0 < ([] : List String).length) := by simp
  simp only [handleAssignmentChange, if_neg hno]
  by_cases hsub : d.subtotal = 0
  · simp only [recalculateBillSplit, if_pos hsub]
    have h1 : (List.filter (fun p => decide (0 < p.items.length))
          (removeItemFromAll item.item_name split)).map (removePerson item.item_name)
        = List.filter (fun p => decide (0 < p.items.length))
          (removeItemFromAll item.item_name split) := by
      refine map_self_of_mem (fun a ha => ?_)
      rcases List.mem_map.1 (List.mem_filter.1 ha).1 with ⟨b, _, hb⟩
      rw [← hb, removePerson_idem]
    show List.filter _ ((List.filter _ (removeItemFromAll item.item_name split)).map
      (removePerson item.item_name)) = _
    rw [h1, filter_hasItems_idem]
  · simp only [recalculateBillSplit, if_neg hsub]
    have h1 : ((List.filter (fun p => decide (0 < p.items.length))
          (removeItemFromAll item.item_name split)).map (recalcPerson d)).map
          (removePerson item.item_name)
        = (List.filter (fun p => decide (0 < p.items.length))
          (removeItemFromAll item.item_name split)).map (recalcPerson d) := by
      refine map_self_of_mem (fun a ha => ?_)
      rcases List.mem_map.1 ha with ⟨b, hbmem, hb⟩
      rcases List.mem_map.1 (List.mem_filter.1 hbmem).1 with ⟨c, _, hc⟩
      rw [← hb, ← hc, removePerson_recalcPerson]
    show (List.filter _ (((List.filter _ (removeItemFromAll item.item_name split)).map
      (recalcPerson d)).map (removePerson item.item_name))).map (recalcPerson d) = _
    rw [h1, filter_hasItems_map_recalc, filter_hasItems_idem, List.map_map]
    exact List.map_congr_left (fun a _ => recalcPerson_idem d a)

/-- C9: after every field-level mutation of the receipt edit draft —
single item field, item add, item remove, or aggregate edit — the
draft's total equals subtotal + tax + tip; the total field is always
rederived, never kept as independently set. -/
theorem receiptEdit_total_derived (draft : ReceiptData) (field : ReceiptField) (idx : Nat) :
    ((handleReceiptEdit draft field).total
        = (handleReceiptEdit draft field).subtotal + (handleReceiptEdit draft field).tax
          + (handleReceiptEdit draft field).tip) ∧
    ((handleAddItem draft).total
        = (handleAddItem draft).subtotal + (handleAddItem draft).tax + (handleAddItem draft).tip) ∧
    ((handleRemoveItem draft idx).total
        = (handleRemoveItem draft idx).subtotal + (handleRemoveItem draft idx).tax
          + (handleRemoveItem draft idx).tip) := by
  refine ⟨?_, rfl, rfl⟩
  cases field <;> rfl

/-- Concrete prior state for the commit-cascade witness: a receipt on
display, a nonempty split, a three-entry chat log, and an edit draft. -/
def stBusy : AppState :=
  { receiptData := some dNachos
    billSplit := sQuarter
    chatMessages := [{ sender := Sender.system, text := "Receipt loaded!" },
                     { sender := Sender.user, text := "Dana had the starter" },
                     { sender := Sender.bot, text := "Done." }]
    isReceiptEditing := true
    editingReceiptData := some dHundred }

/-- C8: with an edit draft present, a confirmed receipt commit replaces
the canonical receipt with the draft, empties the bill split, and resets
the conversation log to exactly the single system notice; declining the
confirmation changes nothing at all. -/
theorem saveReceipt_commit_cascade (st : AppState) (draft : ReceiptData)
    (h : st.editingReceiptData = some draft) :
    (handleSaveReceipt st true).receiptData = some draft ∧
    (handleSaveReceipt st true).billSplit = [] ∧
    (handleSaveReceipt st true).chatMessages = [commitNotice] ∧
    handleSaveReceipt st false = st := by
  unfold handleSaveReceipt
  rw [h]
  simp

/-- Witness for C8 at a concrete busy state with a draft present. -/
theorem saveReceipt_commit_cascade_witness :
    stBusy.editingReceiptData = some dHundred ∧
    ((handleSaveReceipt stBusy true).receiptData = some dHundred ∧
     (handleSaveReceipt stBusy true).billSplit = [] ∧
     (handleSaveReceipt stBusy true).chatMessages = [commitNotice] ∧
     handleSaveReceipt stBusy false = stBusy) :=
  ⟨rfl, saveReceipt_commit_cascade stBusy dHundred rfl⟩

end TabSplit
